import Mathlib

/-!
Verification development for the AliOpenKG-Tools repository.

This file shallowly embeds the two processing pipelines of the repository,
`src/process_large_rar.py` (the N-Triples pipeline) and
`src/process_tbox_jsonld.py` (the JSON-LD TBox pipeline), as executable Lean
definitions, and proves or refutes the specification claims about them.

Modelling conventions:
- Python strings are Lean `String`s; string operations (`strip`, `startswith`,
  `endswith`, `in`, `split`, `upper`) are modelled on the underlying character
  lists so that concrete instances reduce by `decide`/`rfl`.
- Python dicts that are used in insertion order are modelled as association
  lists (`List (key × value)`), with new bindings appended at the end, matching
  CPython's insertion-ordered dicts; keys are assumed distinct (the code only
  inserts a key after checking it is absent).
- A raised Python exception is modelled as `Except.error` for code whose caller
  aborts on it, and as a `Bool` success flag paired with the (already mutated)
  state for code whose caller catches it and continues: Python exceptions do
  not roll back mutations performed before the raise.
- Calls to names that are not defined anywhere in the repository
  (`add_property`, `process_category_entity`, `process_brand_entity`,
  `process_scene_entity`, `process_crowd_entity`, `process_time_entity`,
  `process_theme_entity`, `process_market_entity`,
  `process_placeoforigin_entity` in `process_large_rar.py`;
  `_process_concept`, `_process_property`, `_process_relationships` in
  `process_tbox_jsonld.py`) are modelled as raising `NameError`/
  `AttributeError`, which is exactly what CPython does at the call site.
- `random.randint(0, n-1)` draws are modelled by quantifying over explicit
  choice lists; `random.random() < p` draws by explicit boolean flags.
-/

namespace AliOpenKG

/-- Python `str.strip()` on a character list: drop whitespace from both ends. -/
def stripChars (l : List Char) : List Char :=
  ((l.dropWhile Char.isWhitespace).reverse.dropWhile Char.isWhitespace).reverse

/-- Python `line.strip()`. -/
def stripStr (s : String) : String := String.mk (stripChars s.data)

/-- The N-Triples loop's skip test on the stripped line:
`if not line or line.startswith('#'): continue`. -/
def skipLine (t : String) : Bool :=
  match t.data with
  | [] => true
  | c :: _ => c == '#'

/-- The valid (non-blank, non-comment) lines of a stream, stripped, in order.
This is what the scanner of `process_large_nt_file` feeds to the sampler. -/
def validLines (lines : List String) : List String :=
  (lines.map stripStr).filter (fun t => !skipLine t)

/-- Python `s.endswith(suffix)`. -/
def strEndsWith (s suffix : String) : Bool :=
  suffix.data.isSuffixOf s.data

/-- Python `pat in hay` (substring containment). -/
def containsStr (hay pat : String) : Bool :=
  hay.data.tails.any (fun t => pat.data.isPrefixOf t)

/-- Python `s.upper()` (the identifiers involved are ASCII). -/
def upperStr (s : String) : String := String.mk (s.data.map Char.toUpper)

/-- The last segment of `l` split at `sep`: Python `s.split(sep)[-1]`. -/
def lastSegment (sep : Char) (l : List Char) : List Char :=
  (l.reverse.takeWhile (fun c => c != sep)).reverse

/-- The label/relation-name extraction used by `process_user_entity`,
`process_product_entity`, `add_relationship` and `_process_class`:
`x = uri.split('/')[-1]; if '#' in x: x = x.split('#')[-1]`. -/
def localName (uri : String) : String :=
  let lab := lastSegment '/' uri.data
  let lab := if lab.contains '#' then lastSegment '#' lab else lab
  String.mk lab

/-! ### Data model of the N-Triples pipeline (`process_large_rar.py`) -/

/-- An entity record as stored in `entity_map[...]`: `{'id': ..., 'label': ...}`. -/
structure EntityRec where
  id : String
  label : String
deriving DecidableEq

/-- The per-type entity mappings, in the insertion order of the keys of the
`entity_map` dict of `process_large_nt_file`. -/
structure EntityMap where
  users : List (String × EntityRec)
  products : List (String × EntityRec)
  categories : List (String × EntityRec)
  brands : List (String × EntityRec)
  scenes : List (String × EntityRec)
  crowds : List (String × EntityRec)
  times : List (String × EntityRec)
  themes : List (String × EntityRec)
  markets : List (String × EntityRec)
  placeOfOrigins : List (String × EntityRec)
deriving DecidableEq

/-- The `entity_counts` dict. -/
structure EntityCounts where
  user : ℕ
  product : ℕ
  category : ℕ
  brand : ℕ
  scene : ℕ
  crowd : ℕ
  time : ℕ
  theme : ℕ
  market : ℕ
  placeOfOrigin : ℕ
deriving DecidableEq

/-- A relationship record appended by `add_relationship`. -/
structure Rel where
  fromId : String
  toId : String
  relType : String
deriving DecidableEq

/-- The mutable state shared by the triple-processing functions. -/
structure NTState where
  map : EntityMap
  counts : EntityCounts
  rels : List Rel
deriving DecidableEq

def emptyEntityMap : EntityMap :=
  { users := [], products := [], categories := [], brands := [], scenes := [],
    crowds := [], times := [], themes := [], markets := [], placeOfOrigins := [] }

def emptyCounts : EntityCounts :=
  { user := 0, product := 0, category := 0, brand := 0, scene := 0,
    crowd := 0, time := 0, theme := 0, market := 0, placeOfOrigin := 0 }

/-- The state at the start of a `process_large_nt_file` run. -/
def initNTState : NTState := { map := emptyEntityMap, counts := emptyCounts, rels := [] }

/-- The `rel_mapping` dict of `add_relationship`. -/
def relMapping : List (String × String) :=
  [("hasCategory", "BELONGS_TO_CATEGORY"),
   ("hasBrand", "HAS_BRAND"),
   ("belongsTo", "BELONGS_TO"),
   ("appliesTo", "APPLIES_TO"),
   ("suitable_for_crowd", "SUITABLE_FOR_CROWD"),
   ("suitable_for_scene", "SUITABLE_FOR_SCENE"),
   ("suitable_for_time", "SUITABLE_FOR_TIME"),
   ("hasTheme", "HAS_THEME"),
   ("inMarket", "IN_MARKET")]

/-- The relation type computed by `add_relationship`:
`rel_mapping.get(local_name, local_name.upper())`. -/
def relTypeOf (predicate : String) : String :=
  let ln := localName predicate
  (relMapping.lookup ln).getD (upperStr ln)

/-- Lookup of an id in one per-type mapping. -/
def findIdIn (entities : List (String × EntityRec)) (uri : String) : Option String :=
  (entities.lookup uri).map EntityRec.id

/-- The per-type mappings in the iteration order of `entity_map.items()`. -/
def mapLists (m : EntityMap) : List (List (String × EntityRec)) :=
  [m.users, m.products, m.categories, m.brands, m.scenes,
   m.crowds, m.times, m.themes, m.markets, m.placeOfOrigins]

/-- The `for entity_type, entities in entity_map.items(): ... break` scan of
`add_relationship`: first mapping containing the URI wins. -/
def findIdScan : List (List (String × EntityRec)) → String → Option String
  | [], _ => none
  | l :: ls, uri =>
    match findIdIn l uri with
    | some i => some i
    | none => findIdScan ls uri

/-- The endpoint lookup of `add_relationship`: scan the per-type mappings in
dict insertion order, first hit wins. -/
def findId (m : EntityMap) (uri : String) : Option String :=
  findIdScan (mapLists m) uri

/-- All entity records of the map, in per-type insertion order. -/
def allRecords (m : EntityMap) : List (String × EntityRec) :=
  (mapLists m).flatten

/-- The ids of all entity records of the map. -/
def idsOfMap (m : EntityMap) : List String :=
  (allRecords m).map (fun p => p.2.id)

/-- The `process_user_entity` function: create the record on first sight of
the URI, assigning `user_<count>`; do nothing if the URI is already present. -/
def processUserEntity (st : NTState) (uri : String) : NTState :=
  if (st.map.users.lookup uri).isSome then st
  else
    { st with
      map := { st.map with
        users := st.map.users ++
          [(uri, { id := "user_" ++ toString st.counts.user, label := localName uri })] },
      counts := { st.counts with user := st.counts.user + 1 } }

/-- The `process_product_entity` function, same shape as `process_user_entity`. -/
def processProductEntity (st : NTState) (uri : String) : NTState :=
  if (st.map.products.lookup uri).isSome then st
  else
    { st with
      map := { st.map with
        products := st.map.products ++
          [(uri, { id := "product_" ++ toString st.counts.product, label := localName uri })] },
      counts := { st.counts with product := st.counts.product + 1 } }

/-- The `add_relationship` function: resolve both endpoint URIs across all
per-type mappings; append a relationship record only when both resolve (and
both ids are truthy, i.e. non-empty); otherwise leave the state unchanged. -/
def addRelationship (st : NTState) (subjectUri objectUri predicate : String) : NTState :=
  let relType := relTypeOf predicate
  match findId st.map subjectUri, findId st.map objectUri with
  | some fromId, some toId =>
    if fromId = "" ∨ toId = "" then st
    else { st with rels := st.rels ++ [{ fromId := fromId, toId := toId, relType := relType }] }
  | some _, none => st
  | none, some _ => st
  | none, none => st

/-- The `process_triple` function. Branches calling functions that are not
defined anywhere in the repository (`process_category_entity` and the other
seven typed-entity processors, and `add_property`) are modelled as the
`NameError` CPython raises at the call. -/
def processTriple (st : NTState) (subject predicate obj : String) (isUri : Bool) :
    Except String NTState :=
  if strEndsWith predicate "type" then
    if containsStr obj "User" then .ok (processUserEntity st subject)
    else if containsStr obj "Product" then .ok (processProductEntity st subject)
    else if containsStr obj "Category" then .error "NameError: process_category_entity is not defined"
    else if containsStr obj "Brand" then .error "NameError: process_brand_entity is not defined"
    else if containsStr obj "Scene" then .error "NameError: process_scene_entity is not defined"
    else if containsStr obj "Crowd" then .error "NameError: process_crowd_entity is not defined"
    else if containsStr obj "Time" then .error "NameError: process_time_entity is not defined"
    else if containsStr obj "Theme" then .error "NameError: process_theme_entity is not defined"
    else if containsStr obj "Market" then .error "NameError: process_market_entity is not defined"
    else if containsStr obj "PlaceOfOrigin" then .error "NameError: process_placeoforigin_entity is not defined"
    else .ok st
  else if isUri &&
      (containsStr predicate "hasCategory" || containsStr predicate "hasBrand" ||
       containsStr predicate "belongsTo" || containsStr predicate "appliesTo") then
    .ok (addRelationship st subject obj predicate)
  else if !isUri then .error "NameError: add_property is not defined"
  else .ok st

/-- Sequential processing of parsed triples `(subject, predicate, obj, is_uri)`.
An exception raised on one triple propagates: `process_chunk` and the main loop
of `process_large_nt_file` have no per-item handler, so the first raise aborts
the pass (it is caught only by the whole-file `except` which returns
`(None, {})`). -/
def processTriples (st : NTState) : List (String × String × String × Bool) → Except String NTState
  | [] => .ok st
  | (subj, pred, obj, isUri) :: ts =>
    match processTriple st subj pred obj isUri with
    | .ok st' => processTriples st' ts
    | .error e => .error e

/-! ### The tabular writer (`save_to_neo4j_format`) -/

/-- Rows of the users file: header then one row per record in insertion order. -/
def usersFile (m : EntityMap) : List String :=
  "id:ID,label,views,purchases,follows,:LABEL" ::
    m.users.map (fun p => p.2.id ++ "," ++ p.2.label ++ ",,,,User")

/-- Rows of a simple entity file (products/categories/brands/scenes). -/
def simpleFile (tag : String) (entities : List (String × EntityRec)) : List String :=
  "id:ID,label,:LABEL" :: entities.map (fun p => p.2.id ++ "," ++ p.2.label ++ "," ++ tag)

/-- Rows of the relationships file. -/
def relsFile (rels : List Rel) : List String :=
  ":START_ID,:END_ID,:TYPE" :: rels.map (fun r => r.fromId ++ "," ++ r.toId ++ "," ++ r.relType)

/-- The `save_to_neo4j_format` function, as the mapping from output-file key to
file content. Only `users`, `products`, `categories`, `brands`, `scenes` and
`relationships` are ever written; the function has no branch for `crowds`,
`times`, `themes`, `markets` or `placeOfOrigins`. A file is written only when
its collection is non-empty. -/
def saveToNeo4jFormat (m : EntityMap) (rels : List Rel) : List (String × List String) :=
  (if m.users.isEmpty then [] else [("users", usersFile m)]) ++
  (if m.products.isEmpty then [] else [("products", simpleFile "Product" m.products)]) ++
  (if m.categories.isEmpty then [] else [("categories", simpleFile "Category" m.categories)]) ++
  (if m.brands.isEmpty then [] else [("brands", simpleFile "Brand" m.brands)]) ++
  (if m.scenes.isEmpty then [] else [("scenes", simpleFile "Scene" m.scenes)]) ++
  (if rels.isEmpty then [] else [("relationships", relsFile rels)])

/-! ### The sampling engine of `process_large_nt_file` -/

/-- The head-sampling loop (`random_sample=False`), lines 169-179: strip each
line, skip blank/comment lines, append the first `sampleSize` valid lines to
both the sample and the processing chunk, and break out of the loop on the
next valid line once the sample is full. Returns (sample, lines accepted for
processing). -/
def headLoop (s : ℕ) (sampled processed : List String) : List String → List String × List String
  | [] => (sampled, processed)
  | l :: ls =>
    let t := stripStr l
    if skipLine t then headLoop s sampled processed ls
    else if sampled.length < s then headLoop s (sampled ++ [t]) (processed ++ [t]) ls
    else (sampled, processed)

/-- The reservoir update loop (`random_sample=True`), lines 149-163, run over a
stream of already-valid items: while the reservoir holds fewer than `s` items
the current item is appended (no random draw happens); afterwards the next
entry `j` of the choice list (the value returned by
`random.randint(0, valid_line_count - 1)`) is consumed and slot `j` is
overwritten with the current item exactly when `j < s`. The early-stop
heuristic at `valid_line_count >= sample_size * 10` is not modelled (the
claims quantify over the prefix actually processed). -/
def reservoirRun (s : ℕ) (r : List α) : List α → List ℕ → List α
  | [], _ => r
  | x :: xs, cs =>
    if r.length < s then reservoirRun s (r ++ [x]) xs cs
    else
      match cs with
      | [] => r
      | j :: cs' => reservoirRun s (if j < s then r.set j x else r) xs cs'

/-- The sample produced by the sampling engine of `process_large_nt_file` in
either mode, as a function of the raw line stream and (in reservoir mode) the
list of random draws. -/
def ntSample (randomMode : Bool) (s : ℕ) (lines : List String) (cs : List ℕ) : List String :=
  if randomMode then reservoirRun s [] (validLines lines) cs
  else (headLoop s [] [] lines).1

/-- All valid choice lists for the full-reservoir phase that starts after
`cnt` valid lines have been seen: the draw for line `cnt + 1` is
`randint(0, cnt)`, i.e. uniform on `{0, ..., cnt}`, and so on. -/
def choiceLists : ℕ → ℕ → Finset (List ℕ)
  | _, 0 => {[]}
  | cnt, len + 1 =>
    (Finset.range (cnt + 1)).biUnion fun j => (choiceLists (cnt + 1) len).image (j :: ·)

/-- Rising factorial `a * (a+1) * ... * (a+len-1)`; the number of choice lists
and the running count in the reservoir-uniformity argument. -/
def ffact : ℕ → ℕ → ℕ
  | _, 0 => 1
  | a, len + 1 => a * ffact (a + 1) len

/-! ### Data model of the JSON-LD TBox pipeline (`process_tbox_jsonld.py`) -/

/-- JSON values, as far as the TBox processor inspects them. -/
inductive JValue where
  | str : String → JValue
  | arr : List JValue → JValue
  | obj : List (String × JValue) → JValue
  | null : JValue

/-- Key lookup in a JSON object (Python `item.get(k)` / `k in item`). -/
def jGet (kvs : List (String × JValue)) (k : String) : Option JValue :=
  kvs.lookup k

/-- A class record stored in `entity_mapping['classes']` by `_process_class`. -/
structure ClassRec where
  id : String
  uri : String
  name : String
  label : Option String
  description : Option String
deriving DecidableEq

/-- The `entity_counts` dict of `TBoxProcessor`. -/
structure TBoxCounts where
  classCount : ℕ
  conceptCount : ℕ
  propertyCount : ℕ
  subclassRel : ℕ
  broaderRel : ℕ
  subpropertyRel : ℕ
  otherRel : ℕ
deriving DecidableEq

/-- The mutable state of a `TBoxProcessor` instance. -/
structure TBoxState where
  classes : List (String × ClassRec)
  concepts : List (String × ClassRec)
  properties : List (String × ClassRec)
  counts : TBoxCounts
  processed : List String
  relationships : List Rel
deriving DecidableEq

def initTBoxCounts : TBoxCounts :=
  { classCount := 0, conceptCount := 0, propertyCount := 0,
    subclassRel := 0, broaderRel := 0, subpropertyRel := 0, otherRel := 0 }

/-- The state right after `TBoxProcessor.__init__`. -/
def initTBoxState : TBoxState :=
  { classes := [], concepts := [], properties := [], counts := initTBoxCounts,
    processed := [], relationships := [] }

/-- The `@type` normalisation of `_process_jsonld_item`:
`types = item.get('@type', []); if isinstance(types, str): types = [types]`,
followed by iterating `types`. Iterating a JSON array compares each element
with strings (non-strings never match); iterating a JSON object yields its
keys; iterating `null` (`None`) raises `TypeError`. -/
def typesOf : Option JValue → Except String (List String)
  | none => .ok []
  | some (.str s) => .ok [s]
  | some (.arr vs) => .ok (vs.filterMap fun v => match v with | .str s => some s | _ => none)
  | some (.obj kvs) => .ok (kvs.map (fun kv => kv.1))
  | some .null => .error "TypeError: NoneType object is not iterable"

/-- First value among `keys` present in the object (the `for ... break` scan
used for labels and comments). -/
def firstPresent (kvs : List (String × JValue)) : List String → Option JValue
  | [] => none
  | k :: ks =>
    match jGet kvs k with
    | some v => some v
    | none => firstPresent kvs ks

/-- Value-to-string step of the label/comment scan: a dict contributes its
`@value` entry when that is a string, a plain string contributes itself,
anything else leaves the label unset (the scan still breaks). -/
def valueToLabel : JValue → Option String
  | .obj kvs =>
    match jGet kvs "@value" with
    | some (.str s) => some s
    | _ => none
  | .str s => some s
  | _ => none

/-- The label scan of `_process_jsonld_item` over
`['rdfs:label', 'http://www.w3.org/2000/01/rdf-schema#label', 'skos:prefLabel']`. -/
def extractItemLabel (kvs : List (String × JValue)) : Option String :=
  (firstPresent kvs
    ["rdfs:label", "http://www.w3.org/2000/01/rdf-schema#label", "skos:prefLabel"]).bind
    valueToLabel

/-- The comment scan of `_process_class` over
`['rdfs:comment', 'http://www.w3.org/2000/01/rdf-schema#comment']`. -/
def extractDescription (kvs : List (String × JValue)) : Option String :=
  (firstPresent kvs
    ["rdfs:comment", "http://www.w3.org/2000/01/rdf-schema#comment"]).bind valueToLabel

/-- The `_process_class` method: return unchanged if the URI already has a
class record; otherwise create `class_<count>` with name taken from the label
when truthy, else derived from the URI's last path/fragment segment. -/
def processClass (st : TBoxState) (uri : String) (kvs : List (String × JValue))
    (label : Option String) : TBoxState :=
  if (st.classes.lookup uri).isSome then st
  else
    let classId := "class_" ++ toString st.counts.classCount
    let description := extractDescription kvs
    let className :=
      match label with
      | some l => if l = "" then localName uri else l
      | none => localName uri
    { st with
      classes := st.classes ++
        [(uri, { id := classId, uri := uri, name := className, label := label,
                 description := description })],
      counts := { st.counts with classCount := st.counts.classCount + 1 } }

def isClassType (t : String) : Bool :=
  t == "owl:Class" || t == "http://www.w3.org/2002/07/owl#Class"

/-- The `_process_jsonld_item` method, returning the new state and a success
flag. Non-dict items, items with a falsy `@id` and items whose `@id` was
already processed return immediately with the state unchanged. Otherwise the
URI is recorded as processed, the `@type` list is scanned, class items are
stored via `_process_class`, and the unconditional call to the undefined
method `_process_relationships` (and the calls to the undefined
`_process_concept`/`_process_property` on the other branches, and the
`TypeError` on a `null` `@type` or an unhashable `@id`) raises: the flag is
`false` and the mutations made so far persist, as in CPython. -/
def processJsonldItem (st : TBoxState) (item : JValue) : TBoxState × Bool :=
  match item with
  | .obj kvs =>
    (match jGet kvs "@id" with
    | none => (st, true)
    | some JValue.null => (st, true)
    | some (.arr []) => (st, true)
    | some (.arr (_ :: _)) => (st, false)
    | some (.obj []) => (st, true)
    | some (.obj (_ :: _)) => (st, false)
    | some (.str u) =>
      if u = "" then (st, true)
      else if u ∈ st.processed then (st, true)
      else
        let st1 := { st with processed := u :: st.processed }
        match typesOf (jGet kvs "@type") with
        | .error _ => (st1, false)
        | .ok types =>
          let label := extractItemLabel kvs
          if types.any isClassType then (processClass st1 u kvs label, false)
          else (st1, false))
  | _ => (st, true)

/-- The sampling gate of `_process_jsonld_graph` (whole-document path):
in random mode, `random.sample(graph_data, sample_size)` when the graph is
larger than the sample (`pick` abstracts the random selection); in sequential
mode, truncate to `sample_size` items only when `sample_size > 0`. -/
def jsonldGraphSelect (randomMode : Bool) (s : ℕ) (pick : List JValue → List JValue)
    (g : List JValue) : List JValue :=
  if randomMode then (if s < g.length then pick g else g)
  else if 0 < s ∧ s < g.length then g.take s else g

/-- The per-item sampling loop of `_process_large_jsonld_file` over the
reconstructed items, each paired with the outcome of its
`random.random() < sample_size / (item_count + sample_size)` draw (unused in
sequential mode). The per-item `try` means an exception during
`_process_jsonld_item` keeps the loop going with the mutated state and skips
the `sampled_count` increment. Returns (state, item count, sampled count). -/
def lineLoop (randomMode : Bool) (s : ℕ) :
    TBoxState → ℕ → ℕ → List (JValue × Bool) → TBoxState × ℕ × ℕ
  | st, itemCount, sampledCount, [] => (st, itemCount, sampledCount)
  | st, itemCount, sampledCount, (item, flip) :: rest =>
    let n := itemCount + 1
    let accept : Bool := if randomMode then flip else decide (sampledCount < s)
    if accept then
      match processJsonldItem st item with
      | (st', true) => lineLoop randomMode s st' n (sampledCount + 1) rest
      | (st', false) => lineLoop randomMode s st' n sampledCount rest
    else lineLoop randomMode s st n sampledCount rest

/-! ### Concrete scenario states used by witnesses and counterexamples -/

/-- Scenario A of the spec, at the `process_triple` level: the typing triple
then the literal-attribute triple. -/
def scenarioA : List (String × String × String × Bool) :=
  [("http://ex/u1", "http://ex/type", "http://schema/User", true),
   ("http://ex/u1", "http://ex/name", "Alice", false)]

/-- A state holding two resolved product entities. -/
def ntTwoProducts : NTState :=
  { map := { emptyEntityMap with
      products := [("http://ex/p1", { id := "product_0", label := "p1" }),
                   ("http://ex/p2", { id := "product_1", label := "p2" })] },
    counts := { emptyCounts with product := 2 },
    rels := [] }

/-- An entity map whose only non-empty per-type mapping is `crowds`. -/
def mapCrowdOnly : EntityMap :=
  { emptyEntityMap with crowds := [("http://ex/c1", { id := "crowd_0", label := "c1" })] }

/-- A TBox state that has already processed one URI. -/
def tboxSeenState : TBoxState := { initTBoxState with processed := ["http://ex/b1"] }

/-- A stream whose middle triple raises (`add_property` is undefined) and whose
last triple would create a second user. -/
def scenarioBad : List (String × String × String × Bool) :=
  [("http://ex/u1", "http://ex/type", "http://schema/User", true),
   ("http://ex/u1", "http://ex/name", "Alice", false),
   ("http://ex/u2", "http://ex/type", "http://schema/User", true)]

/-- The stream `scenarioBad` without its raising middle triple. -/
def scenarioTwoUsers : List (String × String × String × Bool) :=
  [("http://ex/u1", "http://ex/type", "http://schema/User", true),
   ("http://ex/u2", "http://ex/type", "http://schema/User", true)]

/-- The state produced by processing `scenarioTwoUsers`. -/
def ntTwoUsers : NTState :=
  { map := { emptyEntityMap with
      users := [("http://ex/u1", { id := "user_0", label := "u1" }),
                ("http://ex/u2", { id := "user_1", label := "u2" })] },
    counts := { emptyCounts with user := 2 },
    rels := [] }

/-- A stream that types two products and then relates them with `belongsTo`. -/
def scenarioRel : List (String × String × String × Bool) :=
  [("http://ex/p1", "http://ex/type", "http://schema/Product", true),
   ("http://ex/p2", "http://ex/type", "http://schema/Product", true),
   ("http://ex/p1", "http://ex/belongsTo", "http://ex/p2", true)]

/-- The state produced by processing `scenarioRel`. -/
def ntRelState : NTState :=
  { ntTwoProducts with
    rels := [{ fromId := "product_0", toId := "product_1", relType := "BELONGS_TO" }] }

/-- A TBox state holding one class record. -/
def tboxClassState : TBoxState :=
  { initTBoxState with
    classes := [("http://ex/b1",
      { id := "class_0", uri := "http://ex/b1", name := "b1", label := none,
        description := none })],
    counts := { initTBoxCounts with classCount := 1 } }

/-- Referential integrity of the relationship list: every recorded endpoint id
is the id of some entity record currently in the map. -/
def relIdsInMap (st : NTState) : Prop :=
  ∀ rel ∈ st.rels, rel.fromId ∈ idsOfMap st.map ∧ rel.toId ∈ idsOfMap st.map

/-! ## Helper lemmas -/

theorem validLines_cons (l : String) (ls : List String) :
    validLines (l :: ls) =
      if skipLine (stripStr l) then validLines ls else stripStr l :: validLines ls := by
  by_cases h : skipLine (stripStr l) <;> simp [validLines, h]

theorem headLoop_spec (s : ℕ) (ls : List String) : ∀ sampled processed : List String,
    headLoop s sampled processed ls =
      (sampled ++ (validLines ls).take (s - sampled.length),
       processed ++ (validLines ls).take (s - sampled.length)) := by
  induction ls with
  | nil => intro sampled processed; simp [headLoop, validLines]
  | cons l ls ih =>
    intro sampled processed
    rw [validLines_cons]
    by_cases h : skipLine (stripStr l)
    · simp only [headLoop, h, if_true]
      exact ih sampled processed
    · simp only [headLoop, h, Bool.false_eq_true, if_false]
      by_cases hlen : sampled.length < s
      · rw [if_pos hlen, ih]
        have h1 : s - sampled.length = (s - (sampled.length + 1)) + 1 := by omega
        simp [List.length_append, h1, List.take_succ_cons, List.append_assoc]
      · rw [if_neg hlen]
        have h0 : s - sampled.length = 0 := by omega
        simp [h0]

theorem lookup_append_singleton {α β : Type _} [BEq α] [LawfulBEq α]
    (l : List (α × β)) (k : α) (v : β) : ((l ++ [(k, v)]).lookup k).isSome := by
  rw [List.lookup_append]
  cases h : l.lookup k <;> simp [h, List.lookup_cons, Option.or]

theorem processUserEntity_stable (st : NTState) (uri : String)
    (h : (st.map.users.lookup uri).isSome) : processUserEntity st uri = st := by
  simp [processUserEntity, h]

theorem processUserEntity_mem (st : NTState) (uri : String) :
    (((processUserEntity st uri).map.users).lookup uri).isSome := by
  unfold processUserEntity
  split
  · assumption
  · exact lookup_append_singleton _ _ _

theorem processClass_stable (st : TBoxState) (uri : String) (kvs : List (String × JValue))
    (label : Option String) (h : (st.classes.lookup uri).isSome) :
    processClass st uri kvs label = st := by
  simp [processClass, h]

theorem processClass_mem (st : TBoxState) (uri : String) (kvs : List (String × JValue))
    (label : Option String) : ((processClass st uri kvs label).classes.lookup uri).isSome := by
  unfold processClass
  split
  · assumption
  · exact lookup_append_singleton _ _ _

/-! ## Claims -/

/-- C3: head sampling (`random_sample=False`): for every input stream the final
sample equals exactly the first `min(sampleSize, number-of-valid-lines)` valid
lines in stream order, and the lines accepted for processing (the chunk) are
exactly those same lines — once the sample is full, the next valid line breaks
the loop, so nothing further is accepted or processed. -/
theorem claimC3 (s : ℕ) (lines : List String) :
    headLoop s [] [] lines = ((validLines lines).take s, (validLines lines).take s) := by
  simpa using headLoop_spec s lines [] []

/-- C5: entity resolution is idempotent and id/type-stable: re-encountering a
URI already present in the per-type mapping leaves the state (hence the
assigned id and the mapping it lives in) unchanged, both for
`process_user_entity` in the N-Triples pipeline and for `_process_class` in
the JSON-LD pipeline; consequently processing the same typing triple or item
twice creates exactly one record. -/
theorem claimC5 :
    (∀ (st : NTState) (uri : String),
        (st.map.users.lookup uri).isSome → processUserEntity st uri = st) ∧
    (∀ (st : NTState) (uri : String),
        processUserEntity (processUserEntity st uri) uri = processUserEntity st uri) ∧
    (∀ (st : TBoxState) (uri : String) (kvs : List (String × JValue)) (label : Option String),
        (st.classes.lookup uri).isSome → processClass st uri kvs label = st) ∧
    (∀ (st : TBoxState) (uri : String) (kvs : List (String × JValue)) (label : Option String),
        processClass (processClass st uri kvs label) uri kvs label =
          processClass st uri kvs label) :=
  ⟨processUserEntity_stable,
   fun st uri => processUserEntity_stable _ _ (processUserEntity_mem st uri),
   processClass_stable,
   fun st uri kvs label => processClass_stable _ _ _ _ (processClass_mem st uri kvs label)⟩

theorem claimC5_witness :
    ((ntTwoUsers.map.users.lookup "http://ex/u1").isSome = true ∧
      processUserEntity ntTwoUsers "http://ex/u1" = ntTwoUsers) ∧
    processUserEntity (processUserEntity initNTState "http://ex/u1") "http://ex/u1" =
      processUserEntity initNTState "http://ex/u1" ∧
    ((tboxClassState.classes.lookup "http://ex/b1").isSome = true ∧
      processClass tboxClassState "http://ex/b1" [] none = tboxClassState) ∧
    processClass (processClass initTBoxState "http://ex/b1" [] none) "http://ex/b1" [] none =
      processClass initTBoxState "http://ex/b1" [] none :=
  ⟨⟨rfl, claimC5.1 ntTwoUsers "http://ex/u1" rfl⟩,
   claimC5.2.1 initNTState "http://ex/u1",
   ⟨rfl, claimC5.2.2.1 tboxClassState "http://ex/b1" [] none rfl⟩,
   claimC5.2.2.2 initTBoxState "http://ex/b1" [] none⟩

/-- C6 (scenario A): the typing triple for `http://ex/u1` succeeds, but the
literal-attribute triple `<http://ex/u1> <http://ex/name> "Alice" .` reaches
the `elif not is_uri` branch of `process_triple`, which calls `add_property` —
a function not defined anywhere in the repository — so the run raises
`NameError` and aborts instead of recording `properties.name == "Alice"`
(N-Triples entity records do not even have a `properties` field). -/
theorem claimC6 :
    processTriples initNTState scenarioA = .error "NameError: add_property is not defined" := by
  rfl

/-- C7 (amended): per-item fault isolation holds only in the JSON-LD
line-reconstruction path, where an exception during `_process_jsonld_item` is
caught per item and the loop continues (with the partial mutations kept and
the sampled count not incremented); in the N-Triples path an exception raised
while processing one triple propagates and aborts the remainder of the pass. -/
theorem claimC7 :
    (∀ (randomMode : Bool) (s : ℕ) (st : TBoxState) (itemCount sampledCount : ℕ)
        (item : JValue) (flip : Bool) (rest : List (JValue × Bool)) (st' : TBoxState),
        processJsonldItem st item = (st', false) →
        (if randomMode then flip else decide (sampledCount < s)) = true →
        lineLoop randomMode s st itemCount sampledCount ((item, flip) :: rest) =
          lineLoop randomMode s st' (itemCount + 1) sampledCount rest) ∧
    (∀ (st : NTState) (subj pred obj : String) (isUri : Bool)
        (ts : List (String × String × String × Bool)) (e : String),
        processTriple st subj pred obj isUri = .error e →
        processTriples st ((subj, pred, obj, isUri) :: ts) = .error e) := by
  constructor
  · intro mode s st n c item flip rest st' hitem hacc
    simp [lineLoop, hacc, hitem]
  · intro st subj pred obj isUri ts e h
    simp [processTriples, h]

theorem claimC7_witness :
    (processJsonldItem initTBoxState (JValue.obj [("@id", JValue.str "x")]) =
        ({ initTBoxState with processed := ["x"] }, false) ∧
      (if false then true else decide ((0 : ℕ) < 1)) = true ∧
      lineLoop false 1 initTBoxState 0 0 [(JValue.obj [("@id", JValue.str "x")], true)] =
        lineLoop false 1 { initTBoxState with processed := ["x"] } 1 0 []) ∧
    (processTriple initNTState "s" "p" "o" false =
        .error "NameError: add_property is not defined" ∧
      processTriples initNTState [("s", "p", "o", false)] =
        .error "NameError: add_property is not defined") :=
  ⟨⟨rfl, rfl, claimC7.1 false 1 initTBoxState 0 0 _ true [] _ rfl rfl⟩,
   ⟨rfl, claimC7.2 initNTState "s" "p" "o" false [] _ rfl⟩⟩

/-- C7 counterexample: in the N-Triples pipeline one bad middle item (a
literal-object triple, which raises `NameError` because `add_property` is
undefined) aborts the whole pass — the final typing triple is never processed
and no state is returned — although the same stream without the bad item
succeeds. The claim that per-item errors are caught and the pass continues is
therefore false for this pipeline. -/
theorem claimC7_counterexample :
    processTriples initNTState scenarioBad = .error "NameError: add_property is not defined" ∧
    processTriples initNTState scenarioTwoUsers = .ok ntTwoUsers :=
  ⟨rfl, rfl⟩

/-- C10: in `_process_jsonld_item`, an item whose `@id` is already in
`processed_uris` returns immediately: the processor state is left completely
unchanged and no error is raised. -/
theorem claimC10 (st : TBoxState) (kvs : List (String × JValue)) (u : String)
    (hid : jGet kvs "@id" = some (JValue.str u)) (hu : ¬u = "")
    (hmem : u ∈ st.processed) :
    processJsonldItem st (JValue.obj kvs) = (st, true) := by
  simp [processJsonldItem, hid, hu, hmem]

theorem mem_of_lookup_eq_some {α β : Type _} [BEq α] [LawfulBEq α] :
    ∀ {l : List (α × β)} {k : α} {v : β}, l.lookup k = some v → (k, v) ∈ l := by
  intro l
  induction l with
  | nil => intro k v h; simp [List.lookup] at h
  | cons p l ih =>
    intro k v h
    obtain ⟨a, b⟩ := p
    by_cases hk : (k == a) = true
    · simp only [List.lookup_cons, hk] at h
      injection h with h'
      subst h'
      have : k = a := eq_of_beq hk
      subst this
      exact List.mem_cons_self _ _
    · rw [Bool.not_eq_true] at hk
      simp only [List.lookup_cons, hk] at h
      exact List.mem_cons_of_mem _ (ih h)

theorem findIdIn_mem {l : List (String × EntityRec)} {uri i : String}
    (h : findIdIn l uri = some i) : i ∈ l.map (fun p => p.2.id) := by
  unfold findIdIn at h
  rcases Option.map_eq_some'.mp h with ⟨v, hv, hid⟩
  subst hid
  exact List.mem_map.mpr ⟨(uri, v), mem_of_lookup_eq_some hv, rfl⟩

theorem findIdScan_mem : ∀ (ls : List (List (String × EntityRec))) (uri i : String),
    findIdScan ls uri = some i → i ∈ ls.flatten.map (fun p => p.2.id) := by
  intro ls
  induction ls with
  | nil => intro uri i h; simp [findIdScan] at h
  | cons l ls ih =>
    intro uri i h
    unfold findIdScan at h
    cases hf : findIdIn l uri with
    | some j =>
      rw [hf] at h
      injection h with h'
      subst h'
      simp only [List.flatten_cons, List.map_append, List.mem_append]
      exact Or.inl (findIdIn_mem hf)
    | none =>
      rw [hf] at h
      simp only [List.flatten_cons, List.map_append, List.mem_append]
      exact Or.inr (ih uri i h)

theorem findId_mem {m : EntityMap} {uri i : String} (h : findId m uri = some i) :
    i ∈ idsOfMap m :=
  findIdScan_mem (mapLists m) uri i h

theorem idsOfMap_mono_users (m : EntityMap) (x : String × EntityRec) :
    ∀ i, i ∈ idsOfMap m → i ∈ idsOfMap { m with users := m.users ++ [x] } := by
  intro i h
  simp only [idsOfMap, allRecords, mapLists, List.flatten_cons, List.flatten_nil,
    List.map_append, List.mem_append, List.append_nil] at h ⊢
  tauto

theorem idsOfMap_mono_products (m : EntityMap) (x : String × EntityRec) :
    ∀ i, i ∈ idsOfMap m → i ∈ idsOfMap { m with products := m.products ++ [x] } := by
  intro i h
  simp only [idsOfMap, allRecords, mapLists, List.flatten_cons, List.flatten_nil,
    List.map_append, List.mem_append, List.append_nil] at h ⊢
  tauto

theorem relIdsInMap_processUserEntity (st : NTState) (uri : String)
    (h : relIdsInMap st) : relIdsInMap (processUserEntity st uri) := by
  unfold processUserEntity
  split
  · exact h
  · intro rel hrel
    have hr := h rel hrel
    exact ⟨idsOfMap_mono_users _ _ _ hr.1, idsOfMap_mono_users _ _ _ hr.2⟩

theorem relIdsInMap_processProductEntity (st : NTState) (uri : String)
    (h : relIdsInMap st) : relIdsInMap (processProductEntity st uri) := by
  unfold processProductEntity
  split
  · exact h
  · intro rel hrel
    have hr := h rel hrel
    exact ⟨idsOfMap_mono_products _ _ _ hr.1, idsOfMap_mono_products _ _ _ hr.2⟩

theorem relIdsInMap_addRelationship (st : NTState) (a b p : String)
    (h : relIdsInMap st) : relIdsInMap (addRelationship st a b p) := by
  cases hf : findId st.map a with
  | none =>
    cases hg : findId st.map b with
    | none => simp only [addRelationship, hf, hg]; exact h
    | some t => simp only [addRelationship, hf, hg]; exact h
  | some f =>
    cases hg : findId st.map b with
    | none => simp only [addRelationship, hf, hg]; exact h
    | some t =>
      simp only [addRelationship, hf, hg]
      split
      · exact h
      · intro rel hrel
        rcases List.mem_append.mp hrel with hmem | hmem
        · exact h rel hmem
        · have hrel2 : rel = { fromId := f, toId := t, relType := relTypeOf p } := by
            simpa using hmem
          subst hrel2
          exact ⟨findId_mem hf, findId_mem hg⟩

set_option maxHeartbeats 1000000 in
theorem relIdsInMap_processTriple {st st' : NTState} {a b c : String} {d : Bool}
    (h : relIdsInMap st) (he : processTriple st a b c d = .ok st') : relIdsInMap st' := by
  unfold processTriple at he
  repeat' split at he
  all_goals first
    | (injection he with he'; subst he')
    | injection he
  · exact relIdsInMap_processUserEntity _ _ h
  · exact relIdsInMap_processProductEntity _ _ h
  · exact h
  · exact relIdsInMap_addRelationship _ _ _ _ h
  · exact h

theorem relIdsInMap_processTriples :
    ∀ (ts : List (String × String × String × Bool)) (st st' : NTState),
      relIdsInMap st → processTriples st ts = .ok st' → relIdsInMap st' := by
  intro ts
  induction ts with
  | nil =>
    intro st st' h he
    simp only [processTriples, Except.ok.injEq] at he
    exact he ▸ h
  | cons t ts ih =>
    intro st st' h he
    obtain ⟨subj, pred, obj, isUri⟩ := t
    unfold processTriples at he
    cases hstep : processTriple st subj pred obj isUri with
    | ok st1 =>
      rw [hstep] at he
      exact ih st1 st' (relIdsInMap_processTriple h hstep) he
    | error e => rw [hstep] at he; exact absurd he (by simp)

/-- C4: every relationship record produced by a successful run references
entity ids present in the run's entity map (hence in its output), and a triple
whose subject or object URI does not resolve at processing time produces no
relationship record at all — `add_relationship` returns with the state
unchanged, leaving no pending work to retry. -/
theorem claimC4 :
    (∀ (ts : List (String × String × String × Bool)) (st' : NTState),
        processTriples initNTState ts = .ok st' →
        ∀ rel ∈ st'.rels, rel.fromId ∈ idsOfMap st'.map ∧ rel.toId ∈ idsOfMap st'.map) ∧
    (∀ (st : NTState) (subj obj pred : String),
        findId st.map subj = none ∨ findId st.map obj = none →
        addRelationship st subj obj pred = st) := by
  constructor
  · intro ts st' he
    exact relIdsInMap_processTriples ts initNTState st' (by intro rel hrel; cases hrel) he
  · intro st subj obj pred h
    unfold addRelationship
    cases hf : findId st.map subj with
    | none => cases hg : findId st.map obj <;> rfl
    | some f =>
      cases hg : findId st.map obj with
      | none => rfl
      | some t =>
        rcases h with h | h
        · rw [hf] at h; cases h
        · rw [hg] at h; cases h

theorem claimC4_witness :
    (processTriples initNTState scenarioRel = .ok ntRelState ∧
      { fromId := "product_0", toId := "product_1", relType := "BELONGS_TO" } ∈ ntRelState.rels ∧
      ("product_0" : String) ∈ idsOfMap ntRelState.map ∧
      ("product_1" : String) ∈ idsOfMap ntRelState.map) ∧
    (findId initNTState.map "http://ex/a" = none ∧
      addRelationship initNTState "http://ex/a" "http://ex/b" "http://ex/p" = initNTState) := by
  refine ⟨⟨rfl, by simp [ntRelState, ntTwoProducts], ?_, ?_⟩, rfl, ?_⟩
  · exact (claimC4.1 scenarioRel ntRelState rfl
      { fromId := "product_0", toId := "product_1", relType := "BELONGS_TO" }
      (by simp [ntRelState, ntTwoProducts])).1
  · exact (claimC4.1 scenarioRel ntRelState rfl
      { fromId := "product_0", toId := "product_1", relType := "BELONGS_TO" }
      (by simp [ntRelState, ntTwoProducts])).2
  · exact claimC4.2 initNTState "http://ex/a" "http://ex/b" "http://ex/p" (Or.inl rfl)

/-! ## Reservoir sampling uniformity (infrastructure for C1) -/

theorem ffact_succ_right : ∀ (a m : ℕ), ffact a (m + 1) = ffact a m * (a + m) := by
  intro a m
  induction m generalizing a with
  | zero => simp [ffact]
  | succ m ih =>
    show a * ffact (a + 1) (m + 1) = ffact a (m + 1) * (a + (m + 1))
    rw [ih (a + 1), show ffact a (m + 1) = a * ffact (a + 1) m from rfl]
    ring

theorem ffact_add : ∀ (m a k : ℕ), ffact a (m + k) = ffact a m * ffact (a + m) k := by
  intro m
  induction m with
  | zero => intro a k; simp [ffact]
  | succ m ih =>
    intro a k
    have e : m + 1 + k = (m + k) + 1 := by omega
    rw [e, show ffact a (m + k + 1) = a * ffact (a + 1) (m + k) from rfl, ih (a + 1) k,
        show ffact a (m + 1) = a * ffact (a + 1) m from rfl,
        show a + (m + 1) = a + 1 + m by omega]
    ring

theorem choiceLists_zero (cnt : ℕ) : choiceLists cnt 0 = {[]} := rfl

theorem choiceLists_succ (cnt len : ℕ) :
    choiceLists cnt (len + 1) =
      (Finset.range (cnt + 1)).biUnion fun j => (choiceLists (cnt + 1) len).image (j :: ·) := rfl

theorem reservoirRun_cons_eq {α : Type _} (s : ℕ) (r : List α) (x : α) (xs : List α)
    (cs : List ℕ) :
    reservoirRun s r (x :: xs) cs =
      if r.length < s then reservoirRun s (r ++ [x]) xs cs
      else
        match cs with
        | [] => r
        | j :: cs' => reservoirRun s (if j < s then r.set j x else r) xs cs' := rfl

theorem choiceLists_image_disjoint (cnt len : ℕ) {x y : ℕ} (hxy : x ≠ y) :
    Disjoint ((choiceLists (cnt + 1) len).image (x :: ·))
      ((choiceLists (cnt + 1) len).image (y :: ·)) := by
  rw [Finset.disjoint_left]
  intro cs hcsx hcsy
  obtain ⟨a, _, ha⟩ := Finset.mem_image.mp hcsx
  obtain ⟨b, _, hb⟩ := Finset.mem_image.mp hcsy
  have hab : x :: a = y :: b := ha.trans hb.symm
  injection hab with h1 _
  exact absurd h1 hxy

theorem choiceLists_card : ∀ (len cnt : ℕ), (choiceLists cnt len).card = ffact (cnt + 1) len := by
  intro len
  induction len with
  | zero => intro cnt; simp [choiceLists, ffact]
  | succ len ih =>
    intro cnt
    rw [choiceLists_succ,
      Finset.card_biUnion (fun x _ y _ hxy => choiceLists_image_disjoint cnt len hxy)]
    have hterm : ∀ j ∈ Finset.range (cnt + 1),
        ((choiceLists (cnt + 1) len).image (j :: ·)).card = ffact (cnt + 2) len := by
      intro j _
      rw [Finset.card_image_of_injective _ (List.cons_injective), ih (cnt + 1)]
    rw [Finset.sum_congr rfl hterm, Finset.sum_const, Finset.card_range, smul_eq_mul]
    rfl

theorem filter_choiceLists_succ_card (cnt len : ℕ) (P : List ℕ → Prop) [DecidablePred P] :
    ((choiceLists cnt (len + 1)).filter P).card =
      ∑ j ∈ Finset.range (cnt + 1),
        ((choiceLists (cnt + 1) len).filter (fun cs => P (j :: cs))).card := by
  rw [choiceLists_succ, Finset.filter_biUnion,
    Finset.card_biUnion (fun x hx y hy hxy =>
      Finset.disjoint_filter_filter (choiceLists_image_disjoint cnt len hxy))]
  apply Finset.sum_congr rfl
  intro j _
  rw [Finset.filter_image, Finset.card_image_of_injective _ (List.cons_injective)]

theorem reservoirRun_full_cons {s : ℕ} {r : List ℕ} (hr : r.length = s) (x j : ℕ)
    (xs : List ℕ) (cs : List ℕ) :
    reservoirRun s r (x :: xs) (j :: cs) =
      reservoirRun s (if j < s then r.set j x else r) xs cs := by
  rw [reservoirRun_cons_eq, if_neg (by omega)]

theorem nodup_set_of_not_mem :
    ∀ (r : List ℕ) (j a : ℕ), r.Nodup → a ∉ r → (r.set j a).Nodup := by
  intro r
  induction r with
  | nil => intro j a _ _; simp
  | cons x xs ih =>
    intro j a hnd hna
    rcases List.nodup_cons.mp hnd with ⟨hx, hxs⟩
    cases j with
    | zero =>
      rw [List.set_cons_zero]
      exact List.nodup_cons.mpr ⟨fun h => hna (List.mem_cons_of_mem _ h), hxs⟩
    | succ j =>
      rw [List.set_cons_succ]
      refine List.nodup_cons.mpr ⟨fun h => ?_, ih j a hxs (fun h => hna (List.mem_cons_of_mem _ h))⟩
      rcases List.mem_or_eq_of_mem_set h with h | h
      · exact hx h
      · exact hna (h ▸ List.mem_cons_self x xs)

theorem not_mem_set_of_not_mem {r : List ℕ} {i a : ℕ} (hi : i ∉ r) (hia : i ≠ a) (j : ℕ) :
    i ∉ r.set j a := fun h => (List.mem_or_eq_of_mem_set h).elim hi hia

theorem mem_set_of_ne_idx {r : List ℕ} {i : ℕ} (a : ℕ) (_hnd : r.Nodup) (hi : i ∈ r) (j : ℕ)
    (hj : j ≠ List.indexOf i r) : i ∈ r.set j a := by
  by_cases hjl : j < r.length
  · have hidx : List.indexOf i r < r.length := List.indexOf_lt_length.mpr hi
    have hlen : List.indexOf i r < (r.set j a).length := by
      simpa [List.length_set] using hidx
    have h2 : (r.set j a)[List.indexOf i r] = r[List.indexOf i r] :=
      List.getElem_set_ne hj hlen
    have h1 : r[List.indexOf i r] = i := List.getElem_indexOf hidx
    have hm := List.getElem_mem hlen
    rwa [h2, h1] at hm
  · rw [List.set_eq_of_length_le (by omega)]
    exact hi

theorem not_mem_set_indexOf {r : List ℕ} {i a : ℕ} (hnd : r.Nodup) (hi : i ∈ r) (hia : i ≠ a) :
    i ∉ r.set (List.indexOf i r) a := by
  intro hmem
  have hidx : List.indexOf i r < r.length := List.indexOf_lt_length.mpr hi
  obtain ⟨k, hk, hke⟩ := List.mem_iff_getElem.mp hmem
  have hkr : k < r.length := by simpa [List.length_set] using hk
  by_cases hkj : k = List.indexOf i r
  · have hset : (r.set (List.indexOf i r) a)[k] = a := by
      subst hkj
      exact List.getElem_set_self hk
    rw [hset] at hke
    exact hia hke.symm
  · have hset : (r.set (List.indexOf i r) a)[k] = r[k] :=
      List.getElem_set_ne (Ne.symm hkj) hk
    rw [hset] at hke
    have h1 : r[List.indexOf i r] = i := List.getElem_indexOf hidx
    have h2 : r[k] = r[List.indexOf i r] := by rw [hke, h1]
    exact hkj ((hnd.getElem_inj_iff).mp h2)

theorem count_not_mem (s : ℕ) : ∀ (len cnt : ℕ) (r : List ℕ) (i : ℕ),
    r.length = s → (∀ x ∈ r, x ≤ cnt) → i ∉ r → i ≤ cnt →
    ((choiceLists cnt len).filter
      (fun cs => i ∈ reservoirRun s r (List.range' (cnt + 1) len) cs)).card = 0 := by
  intro len
  induction len with
  | zero =>
    intro cnt r i hr hb hni hic
    rw [Finset.card_eq_zero, Finset.filter_eq_empty_iff]
    intro cs _
    simp only [List.range'_zero]
    exact hni
  | succ len ih =>
    intro cnt r i hr hb hni hic
    rw [filter_choiceLists_succ_card]
    apply Finset.sum_eq_zero
    intro j _
    simp only [List.range'_succ, reservoirRun_full_cons hr]
    by_cases hjs : j < s
    · simp only [if_pos hjs]
      apply ih (cnt + 1) (r.set j (cnt + 1)) i (by simp [List.length_set, hr])
      · intro x hx
        rcases List.mem_or_eq_of_mem_set hx with h | h
        · exact le_trans (hb x h) (by omega)
        · omega
      · exact not_mem_set_of_not_mem hni (by omega) j
      · omega
    · simp only [if_neg hjs]
      exact ih (cnt + 1) r i hr (fun x hx => le_trans (hb x hx) (by omega)) hni (by omega)

theorem count_mem (s : ℕ) : ∀ (len cnt : ℕ) (r : List ℕ) (i : ℕ),
    r.length = s → r.Nodup → (∀ x ∈ r, x ≤ cnt) → s ≤ cnt → i ∈ r →
    ((choiceLists cnt len).filter
      (fun cs => i ∈ reservoirRun s r (List.range' (cnt + 1) len) cs)).card = ffact cnt len := by
  intro len
  induction len with
  | zero =>
    intro cnt r i hr hnd hb hsc hi
    have hall : ∀ cs ∈ choiceLists cnt 0,
        i ∈ reservoirRun s r (List.range' (cnt + 1) 0) cs := by
      intro cs _
      simp only [List.range'_zero]
      exact hi
    rw [Finset.filter_true_of_mem hall]
    simp [choiceLists, ffact]
  | succ len ih =>
    intro cnt r i hr hnd hb hsc hi
    rw [filter_choiceLists_succ_card]
    have hidx : List.indexOf i r < r.length := List.indexOf_lt_length.mpr hi
    have hia : i ≤ cnt := hb i hi
    have key : ∀ j ∈ Finset.range (cnt + 1),
        ((choiceLists (cnt + 1) len).filter
          (fun cs => i ∈ reservoirRun s r (List.range' (cnt + 1) (len + 1)) (j :: cs))).card
        = if j = List.indexOf i r then 0 else ffact (cnt + 1) len := by
      intro j hj
      simp only [List.range'_succ, reservoirRun_full_cons hr]
      by_cases hji : j = List.indexOf i r
      · rw [if_pos hji]
        have hjs : j < s := by omega
        simp only [if_pos hjs]
        subst hji
        apply count_not_mem s len (cnt + 1) _ i (by simp [List.length_set, hr])
        · intro x hx
          rcases List.mem_or_eq_of_mem_set hx with h | h
          · exact le_trans (hb x h) (by omega)
          · omega
        · exact not_mem_set_indexOf hnd hi (by omega)
        · omega
      · rw [if_neg hji]
        by_cases hjs : j < s
        · simp only [if_pos hjs]
          apply ih (cnt + 1) (r.set j (cnt + 1)) i (by simp [List.length_set, hr])
          · exact nodup_set_of_not_mem r j (cnt + 1) hnd
              (fun hm => by have := hb _ hm; omega)
          · intro x hx
            rcases List.mem_or_eq_of_mem_set hx with h | h
            · exact le_trans (hb x h) (by omega)
            · omega
          · omega
          · exact mem_set_of_ne_idx (cnt + 1) hnd hi j hji
        · simp only [if_neg hjs]
          exact ih (cnt + 1) r i hr hnd (fun x hx => le_trans (hb x hx) (by omega))
            (by omega) hi
    rw [Finset.sum_congr rfl key]
    rw [Finset.sum_eq_sum_diff_singleton_add
      (Finset.mem_range.mpr (show List.indexOf i r < cnt + 1 by omega))
      (fun j => if j = List.indexOf i r then 0 else ffact (cnt + 1) len)]
    rw [if_pos rfl, add_zero]
    have hcongr : ∀ j ∈ Finset.range (cnt + 1) \ {List.indexOf i r},
        (if j = List.indexOf i r then 0 else ffact (cnt + 1) len) = ffact (cnt + 1) len := by
      intro j hj
      rw [if_neg (by simpa using (Finset.mem_sdiff.mp hj).2)]
    rw [Finset.sum_congr rfl hcongr, Finset.sum_const, smul_eq_mul,
        Finset.card_sdiff (by simp [Finset.singleton_subset_iff, Finset.mem_range]; omega),
        Finset.card_singleton, Finset.card_range, Nat.add_sub_cancel]
    rfl

theorem count_new (s : ℕ) : ∀ (len cnt : ℕ) (r : List ℕ) (i : ℕ),
    r.length = s → r.Nodup → (∀ x ∈ r, x ≤ cnt) → s ≤ cnt → cnt < i → i ≤ cnt + len →
    ((choiceLists cnt len).filter
      (fun cs => i ∈ reservoirRun s r (List.range' (cnt + 1) len) cs)).card
      = ffact (cnt + 1) (i - cnt - 1) * s * ffact i (cnt + len - i) := by
  intro len
  induction len with
  | zero => intro cnt r i _ _ _ _ h1 h2; omega
  | succ len ih =>
    intro cnt r i hr hnd hb hsc hlo hhi
    rw [filter_choiceLists_succ_card]
    by_cases hieq : i = cnt + 1
    · subst hieq
      have key : ∀ j ∈ Finset.range (cnt + 1),
          ((choiceLists (cnt + 1) len).filter
            (fun cs => (cnt + 1) ∈
              reservoirRun s r (List.range' (cnt + 1) (len + 1)) (j :: cs))).card
          = if j < s then ffact (cnt + 1) len else 0 := by
        intro j hj
        simp only [List.range'_succ, reservoirRun_full_cons hr]
        by_cases hjs : j < s
        · simp only [if_pos hjs]
          apply count_mem s len (cnt + 1) _ (cnt + 1) (by simp [List.length_set, hr])
          · exact nodup_set_of_not_mem r j (cnt + 1) hnd
              (fun hm => by have := hb _ hm; omega)
          · intro x hx
            rcases List.mem_or_eq_of_mem_set hx with h | h
            · exact le_trans (hb x h) (by omega)
            · omega
          · omega
          · have hjr : j < (r.set j (cnt + 1)).length := by
              simp only [List.length_set]; omega
            have hmem := List.getElem_mem hjr
            rwa [List.getElem_set_self hjr] at hmem
        · simp only [if_neg hjs]
          apply count_not_mem s len (cnt + 1) r (cnt + 1) hr
            (fun x hx => le_trans (hb x hx) (by omega))
            (fun hm => by have := hb _ hm; omega) (le_refl _)
      rw [Finset.sum_congr rfl key, Finset.sum_ite, Finset.sum_const, Finset.sum_const,
          smul_eq_mul, smul_eq_mul, mul_zero, add_zero]
      have hfilter : (Finset.range (cnt + 1)).filter (fun j => j < s) = Finset.range s := by
        ext j
        simp only [Finset.mem_filter, Finset.mem_range]
        omega
      rw [hfilter, Finset.card_range]
      have e1 : cnt + 1 - cnt - 1 = 0 := by omega
      have e2 : cnt + (len + 1) - (cnt + 1) = len := by omega
      rw [e1, e2, show ffact (cnt + 1) 0 = 1 from rfl, one_mul]
    · have key : ∀ j ∈ Finset.range (cnt + 1),
          ((choiceLists (cnt + 1) len).filter
            (fun cs => i ∈ reservoirRun s r (List.range' (cnt + 1) (len + 1)) (j :: cs))).card
          = ffact (cnt + 1 + 1) (i - (cnt + 1) - 1) * s * ffact i (cnt + 1 + len - i) := by
        intro j hj
        simp only [List.range'_succ, reservoirRun_full_cons hr]
        by_cases hjs : j < s
        · simp only [if_pos hjs]
          apply ih (cnt + 1) (r.set j (cnt + 1)) i (by simp [List.length_set, hr])
          · exact nodup_set_of_not_mem r j (cnt + 1) hnd
              (fun hm => by have := hb _ hm; omega)
          · intro x hx
            rcases List.mem_or_eq_of_mem_set hx with h | h
            · exact le_trans (hb x h) (by omega)
            · omega
          · omega
          · omega
          · omega
        · simp only [if_neg hjs]
          exact ih (cnt + 1) r i hr hnd (fun x hx => le_trans (hb x hx) (by omega))
            (by omega) (by omega) (by omega)
      rw [Finset.sum_congr rfl key, Finset.sum_const, smul_eq_mul, Finset.card_range]
      have e1 : i - cnt - 1 = (i - (cnt + 1) - 1) + 1 := by omega
      have e2 : cnt + (len + 1) - i = cnt + 1 + len - i := by omega
      rw [e1, e2,
          show ffact (cnt + 1) ((i - (cnt + 1) - 1) + 1)
            = (cnt + 1) * ffact (cnt + 1 + 1) (i - (cnt + 1) - 1) from rfl]
      ring

theorem reservoirRun_fill (s : ℕ) : ∀ (d a : ℕ) (r xs : List ℕ) (cs : List ℕ),
    r.length + d ≤ s →
    reservoirRun s r (List.range' a d ++ xs) cs = reservoirRun s (r ++ List.range' a d) xs cs := by
  intro d
  induction d with
  | zero => intro a r xs cs h; simp [List.range'_zero]
  | succ d ih =>
    intro a r xs cs h
    rw [List.range'_succ, List.cons_append, reservoirRun_cons_eq, if_pos (by omega)]
    have hlen2 : (r ++ [a]).length + d ≤ s := by
      simp only [List.length_append, List.length_cons, List.length_nil]
      omega
    rw [ih (a + 1) (r ++ [a]) xs cs hlen2]
    congr 1
    rw [List.append_assoc, List.singleton_append, ← List.range'_succ]

theorem ffact_mul_eq (s n : ℕ) (_hs : 1 ≤ s) (hsn : s ≤ n) :
    ffact s (n - s) * n = s * ffact (s + 1) (n - s) := by
  rcases Nat.eq_or_lt_of_le hsn with heq | hlt
  · subst heq
    simp [Nat.sub_self, ffact]
  · have hd : n - s = (n - s - 1) + 1 := by omega
    rw [hd, show ffact s (n - s - 1 + 1) = s * ffact (s + 1) (n - s - 1) from rfl,
        ffact_succ_right (s + 1) (n - s - 1),
        show s + 1 + (n - s - 1) = n by omega]
    ring

theorem ffact_mul_eq_new (s n i : ℕ) (hs : s < i) (hin : i ≤ n) :
    ffact (s + 1) (i - s - 1) * s * ffact i (s + (n - s) - i) * n
      = s * ffact (s + 1) (n - s) := by
  have e0 : s + (n - s) - i = n - i := by omega
  have e1 : n - s = (i - s - 1) + ((n - i) + 1) := by omega
  rw [e0, e1, ffact_add (i - s - 1) (s + 1) ((n - i) + 1),
      show s + 1 + (i - s - 1) = i by omega, ffact_succ_right i (n - i),
      show i + (n - i) = n by omega]
  ring

/-- C1: the reservoir sampler of `process_large_nt_file` (`random_sample=True`)
is uniform: identifying the valid lines of the stream with their 1-based
indices `1..n`, and quantifying over all sequences of `randint` draws (the
draw for the `m`-th valid line, once the reservoir holds `sampleSize` entries,
is uniform on `{0, ..., m-1}` and overwrites slot `j` exactly when
`j < sampleSize`, as `reservoirRun` embeds from the source), the fraction of
draw sequences whose final reservoir contains line `i` is exactly
`sampleSize / n`, stated multiplicatively: `count * n = sampleSize * total`.
The early-stop heuristic is ignored, as the claim directs (`n` is the number
of valid lines actually consumed). -/
theorem claimC1 (s n i : ℕ) (hs : 1 ≤ s) (hsn : s ≤ n) (hi1 : 1 ≤ i) (hin : i ≤ n) :
    ((choiceLists s (n - s)).filter
      (fun cs => i ∈ reservoirRun s ([] : List ℕ) (List.range' 1 n) cs)).card * n
      = s * (choiceLists s (n - s)).card := by
  have hsplit : List.range' 1 n = List.range' 1 s ++ List.range' (s + 1) (n - s) := by
    have happ := List.range'_append 1 s (n - s) 1
    simp only [one_mul] at happ
    rw [show (n - s) + s = n by omega] at happ
    rw [show s + 1 = 1 + s by omega]
    exact happ.symm
  have hfill : ∀ cs : List ℕ, reservoirRun s ([] : List ℕ) (List.range' 1 n) cs
      = reservoirRun s (List.range' 1 s) (List.range' (s + 1) (n - s)) cs := by
    intro cs
    rw [hsplit, reservoirRun_fill s s 1 [] _ cs (by simp [List.length_range']),
        List.nil_append]
  simp only [hfill]
  have hlen : (List.range' 1 s).length = s := by simp [List.length_range']
  have hnd : (List.range' 1 s).Nodup := List.nodup_range' 1 s
  have hbound : ∀ x ∈ List.range' 1 s, x ≤ s := by
    intro x hx
    obtain ⟨k, hk, hke⟩ := List.mem_range'.mp hx
    omega
  rw [choiceLists_card]
  by_cases his : i ≤ s
  · rw [count_mem s (n - s) s (List.range' 1 s) i hlen hnd hbound (le_refl s)
      (List.mem_range'.mpr ⟨i - 1, by omega, by omega⟩)]
    exact ffact_mul_eq s n hs hsn
  · rw [count_new s (n - s) s (List.range' 1 s) i hlen hnd hbound (le_refl s)
      (by omega) (by omega)]
    exact ffact_mul_eq_new s n i (by omega) hin

theorem claimC1_witness :
    1 ≤ 2 ∧ 2 ≤ 3 ∧ (1 : ℕ) ≤ 1 ∧ 1 ≤ 3 ∧
    ((choiceLists 2 (3 - 2)).filter
      (fun cs => 1 ∈ reservoirRun 2 ([] : List ℕ) (List.range' 1 3) cs)).card * 3
      = 2 * (choiceLists 2 (3 - 2)).card :=
  ⟨by decide, by decide, by decide, by decide,
   claimC1 2 3 1 (by decide) (by decide) (by decide) (by decide)⟩

/-- C8 (amended): at end of stream the writer emits, for each of the five
per-type mappings it handles (`users`, `products`, `categories`, `brands`,
`scenes`), exactly the fixed-header file with one row per record in insertion
order when the mapping is non-empty, and no file when it is empty; the
remaining five per-type mappings (`crowds`, `times`, `themes`, `markets`,
`placeOfOrigins`) are never written, even when non-empty —
`save_to_neo4j_format` has no branch for them. -/
theorem claimC8 (m : EntityMap) (rels : List Rel) :
    (¬m.users.isEmpty = true → ("users", usersFile m) ∈ saveToNeo4jFormat m rels) ∧
    (m.users.isEmpty = true → ∀ v, ("users", v) ∉ saveToNeo4jFormat m rels) ∧
    (¬m.products.isEmpty = true →
      ("products", simpleFile "Product" m.products) ∈ saveToNeo4jFormat m rels) ∧
    (m.products.isEmpty = true → ∀ v, ("products", v) ∉ saveToNeo4jFormat m rels) ∧
    (¬m.categories.isEmpty = true →
      ("categories", simpleFile "Category" m.categories) ∈ saveToNeo4jFormat m rels) ∧
    (m.categories.isEmpty = true → ∀ v, ("categories", v) ∉ saveToNeo4jFormat m rels) ∧
    (¬m.brands.isEmpty = true →
      ("brands", simpleFile "Brand" m.brands) ∈ saveToNeo4jFormat m rels) ∧
    (m.brands.isEmpty = true → ∀ v, ("brands", v) ∉ saveToNeo4jFormat m rels) ∧
    (¬m.scenes.isEmpty = true →
      ("scenes", simpleFile "Scene" m.scenes) ∈ saveToNeo4jFormat m rels) ∧
    (m.scenes.isEmpty = true → ∀ v, ("scenes", v) ∉ saveToNeo4jFormat m rels) ∧
    (∀ v, ("crowds", v) ∉ saveToNeo4jFormat m rels) ∧
    (∀ v, ("times", v) ∉ saveToNeo4jFormat m rels) ∧
    (∀ v, ("themes", v) ∉ saveToNeo4jFormat m rels) ∧
    (∀ v, ("markets", v) ∉ saveToNeo4jFormat m rels) ∧
    (∀ v, ("placeOfOrigins", v) ∉ saveToNeo4jFormat m rels) := by
  refine ⟨fun h => ?_, fun h v => ?_, fun h => ?_, fun h v => ?_, fun h => ?_, fun h v => ?_,
    fun h => ?_, fun h v => ?_, fun h => ?_, fun h v => ?_, fun v => ?_, fun v => ?_,
    fun v => ?_, fun v => ?_, fun v => ?_⟩ <;>
    first
      | simp [saveToNeo4jFormat, List.mem_append, List.mem_ite_nil_left, h]
      | simp [saveToNeo4jFormat, List.mem_append, List.mem_ite_nil_left]

theorem claimC8_witness :
    ¬ntTwoProducts.map.products.isEmpty = true ∧
    ("products", simpleFile "Product" ntTwoProducts.map.products) ∈
      saveToNeo4jFormat ntTwoProducts.map [] ∧
    mapCrowdOnly.users.isEmpty = true ∧
    ("users", usersFile mapCrowdOnly) ∉ saveToNeo4jFormat mapCrowdOnly [] ∧
    ("crowds", ["id:ID,label,:LABEL"]) ∉ saveToNeo4jFormat mapCrowdOnly [] :=
  ⟨by decide,
   (claimC8 ntTwoProducts.map []).2.2.1 (by decide),
   rfl,
   (claimC8 mapCrowdOnly []).2.1 rfl (usersFile mapCrowdOnly),
   (claimC8 mapCrowdOnly []).2.2.2.2.2.2.2.2.2.2.1 ["id:ID,label,:LABEL"]⟩

/-- C8 counterexample: an entity map whose only non-empty per-type mapping is
`crowds` produces no output file at all — the claim that every non-empty
per-type mapping (including `crowds`, `times`, `themes`, `markets`,
`placeOfOrigins`) gets a file is false. -/
theorem claimC8_counterexample :
    mapCrowdOnly.crowds ≠ [] ∧ saveToNeo4jFormat mapCrowdOnly [] = [] :=
  ⟨by decide, rfl⟩

/-- C9 (amended): a URI-valued triple reaches the relationship extractor only
when its predicate does not end with `type` and contains one of the four
substrings `hasCategory`, `hasBrand`, `belongsTo`, `appliesTo` (the other five
`rel_mapping` keys are unreachable through `process_triple`); for such a
triple whose endpoints both resolve to entity records with non-empty ids, a
relationship record is appended whose type is the nine-entry `rel_mapping`
applied to the predicate's local name, unmapped local names falling back to
their upper-cased form. -/
theorem claimC9 (st : NTState) (subj pred obj fid tid : String)
    (hty : strEndsWith pred "type" = false)
    (hkw : (containsStr pred "hasCategory" || containsStr pred "hasBrand" ||
            containsStr pred "belongsTo" || containsStr pred "appliesTo") = true)
    (hf : findId st.map subj = some fid) (ht : findId st.map obj = some tid)
    (hf0 : ¬fid = "") (ht0 : ¬tid = "") :
    processTriple st subj pred obj true =
      .ok { st with
        rels := st.rels ++ [{ fromId := fid, toId := tid, relType := relTypeOf pred }] } := by
  have hcond : ¬(fid = "" ∨ tid = "") := by tauto
  simp [processTriple, hty, hkw, addRelationship, hf, ht, hcond]

theorem claimC9_witness :
    strEndsWith "http://ex/belongsTo" "type" = false ∧
    (containsStr "http://ex/belongsTo" "hasCategory" ||
      containsStr "http://ex/belongsTo" "hasBrand" ||
      containsStr "http://ex/belongsTo" "belongsTo" ||
      containsStr "http://ex/belongsTo" "appliesTo") = true ∧
    findId ntTwoProducts.map "http://ex/p1" = some "product_0" ∧
    findId ntTwoProducts.map "http://ex/p2" = some "product_1" ∧
    relTypeOf "http://ex/belongsTo" = "BELONGS_TO" ∧
    processTriple ntTwoProducts "http://ex/p1" "http://ex/belongsTo" "http://ex/p2" true =
      .ok { ntTwoProducts with
        rels := ntTwoProducts.rels ++
          [{ fromId := "product_0", toId := "product_1",
             relType := relTypeOf "http://ex/belongsTo" }] } :=
  ⟨rfl, rfl, rfl, rfl, rfl,
   claimC9 ntTwoProducts "http://ex/p1" "http://ex/belongsTo" "http://ex/p2"
     "product_0" "product_1" rfl rfl rfl rfl (by decide) (by decide)⟩

/-- C9 counterexample: a URI-valued triple whose predicate has local name
`hasTheme` — a key of the nine-entry mapping — and whose endpoints both
resolve never reaches `add_relationship`: the keyword gate of
`process_triple` only checks for `hasCategory`/`hasBrand`/`belongsTo`/
`appliesTo`, so the state is returned unchanged and no `HAS_THEME`
relationship is appended, contrary to the claim. -/
theorem claimC9_counterexample :
    findId ntTwoProducts.map "http://ex/p1" = some "product_0" ∧
    findId ntTwoProducts.map "http://ex/p2" = some "product_1" ∧
    processTriple ntTwoProducts "http://ex/p1" "http://ex/hasTheme" "http://ex/p2" true =
      .ok ntTwoProducts ∧
    ntTwoProducts.rels = [] :=
  ⟨rfl, rfl, rfl, rfl⟩

theorem reservoirRun_length {α : Type _} (s : ℕ) :
    ∀ (stream : List α) (cs : List ℕ) (r : List α),
      r.length ≤ s → (reservoirRun s r stream cs).length ≤ s := by
  intro stream
  induction stream with
  | nil => intro cs r h; simpa [reservoirRun] using h
  | cons x xs ih =>
    intro cs r h
    unfold reservoirRun
    split
    · apply ih
      simp only [List.length_append, List.length_cons, List.length_nil]
      omega
    · cases cs with
      | nil => exact h
      | cons j cs' =>
        apply ih
        split
        · simpa [List.length_set] using h
        · exact h

theorem lineLoop_seq_le (s : ℕ) :
    ∀ (items : List (JValue × Bool)) (st : TBoxState) (n c : ℕ),
      c ≤ s → (lineLoop false s st n c items).2.2 ≤ s := by
  intro items
  induction items with
  | nil => intro st n c h; exact h
  | cons it rest ih =>
    intro st n c h
    obtain ⟨item, flip⟩ := it
    unfold lineLoop
    by_cases hc : c < s
    · simp only [if_false, Bool.false_eq_true, decide_eq_true hc, if_true]
      cases hpi : processJsonldItem st item with
      | mk st' ok =>
        cases ok
        · exact ih st' (n + 1) c h
        · exact ih st' (n + 1) (c + 1) (by omega)
    · simp only [if_false, Bool.false_eq_true, decide_eq_false hc]
      exact ih st (n + 1) c h

/-- C2 (amended): the sample size bound holds for the N-Triples sampler in
both modes (head and reservoir), for the JSON-LD line-reconstruction sampler
in sequential mode, and for the JSON-LD whole-document gate (in random mode
because `random.sample` returns exactly `sampleSize` items, in sequential mode
provided `sampleSize ≥ 1`); it fails for the JSON-LD line-reconstruction
sampler in random mode, whose per-item coin flips are uncapped (see the
counterexample). -/
theorem claimC2 :
    (∀ (randomMode : Bool) (s : ℕ) (lines : List String) (cs : List ℕ),
        (ntSample randomMode s lines cs).length ≤ s) ∧
    (∀ (s : ℕ) (st : TBoxState) (n c : ℕ) (items : List (JValue × Bool)),
        c ≤ s → (lineLoop false s st n c items).2.2 ≤ s) ∧
    (∀ (s : ℕ) (pick : List JValue → List JValue) (g : List JValue),
        (∀ h, s < h.length → (pick h).length = s) →
        (jsonldGraphSelect true s pick g).length ≤ s) ∧
    (∀ (s : ℕ) (pick : List JValue → List JValue) (g : List JValue),
        1 ≤ s → (jsonldGraphSelect false s pick g).length ≤ s) := by
  refine ⟨?_, ?_, ?_, ?_⟩
  · intro mode s lines cs
    unfold ntSample
    split
    · exact reservoirRun_length s _ cs [] (by simp)
    · have hspec := headLoop_spec s lines [] []
      simp only [List.nil_append, List.length_nil, Nat.sub_zero] at hspec
      rw [hspec]
      simp only [List.length_take]
      omega
  · intro s st n c items h
    exact lineLoop_seq_le s items st n c h
  · intro s pick g hpick
    unfold jsonldGraphSelect
    simp only [if_true]
    split
    · rw [hpick g (by assumption)]
    · omega
  · intro s pick g hs
    unfold jsonldGraphSelect
    simp only [Bool.false_eq_true, if_false]
    split
    · simp only [List.length_take]
      omega
    · omega

theorem claimC2_witness :
    (ntSample true 1 ["<a> <b> <c> .", "# comment", "<d> <e> <f> ."] [0]).length ≤ 1 ∧
    (0 : ℕ) ≤ 1 ∧
    (lineLoop false 1 initTBoxState 0 0 [(JValue.obj [], true)]).2.2 ≤ 1 ∧
    (jsonldGraphSelect true 0 (fun _ => []) [JValue.null]).length ≤ 0 ∧
    (1 : ℕ) ≤ 1 ∧
    (jsonldGraphSelect false 1 (fun g => g) []).length ≤ 1 :=
  ⟨claimC2.1 true 1 ["<a> <b> <c> .", "# comment", "<d> <e> <f> ."] [0],
   Nat.zero_le 1,
   claimC2.2.1 1 initTBoxState 0 0 [(JValue.obj [], true)] (Nat.zero_le 1),
   claimC2.2.2.1 0 (fun _ => []) [JValue.null] (fun _ _ => rfl),
   le_refl 1,
   claimC2.2.2.2 1 (fun g => g) [] (le_refl 1)⟩

/-- C2 counterexample: in the JSON-LD line-reconstruction path with
`random_sample=True`, admission is an independent per-item coin flip
(`random.random() < sample_size / (item_count + sample_size)`) with no cap:
with `sample_size = 1` and two items (valid objects without `@id`, which are
processed without error), two favourable flips accept both items, so the
sampled count reaches 2 > 1. -/
theorem claimC2_counterexample :
    1 < (lineLoop true 1 initTBoxState 0 0
      [(JValue.obj [], true), (JValue.obj [], true)]).2.2 := by
  decide

theorem claimC10_witness :
    jGet [("@id", JValue.str "http://ex/b1")] "@id" = some (JValue.str "http://ex/b1") ∧
    ¬("http://ex/b1" : String) = "" ∧
    "http://ex/b1" ∈ tboxSeenState.processed ∧
    processJsonldItem tboxSeenState (JValue.obj [("@id", JValue.str "http://ex/b1")]) =
      (tboxSeenState, true) :=
  ⟨rfl, by decide, by simp [tboxSeenState, initTBoxState],
   claimC10 tboxSeenState _ _ rfl (by decide) (by simp [tboxSeenState, initTBoxState])⟩

end AliOpenKG
